import Mathlib

/-!
Shallow embedding of the `radiance_fields` renderer core.

Scalars are modelled as exact rationals (`ℚ`).  The transcendental float
operations (`exp`, `sin`, `cos`, `tan`, `sqrt`) are opaque primitives of the
runtime; they are collected in a `Prim` record and every definition that uses
them is parameterised over it.  The one place where IEEE-754 infinities are
semantically load-bearing — the slab-test division `1.0 / rd` in
`intersect_ray_box` (src/geometry.rs) — is modelled by the extended type `F32`
below, with `Rust` `f32::min` / `f32::max` / `<=` semantics.
-/

/-- Opaque float primitives (`f32::exp`, `f32::sin`, ...), treated as
arbitrary functions on the exact scalars. -/
structure Prim where
  exp : ℚ → ℚ
  sin : ℚ → ℚ
  cos : ℚ → ℚ
  tan : ℚ → ℚ
  sqrt : ℚ → ℚ

/-- The all-zero primitive record, used to instantiate theorems on concrete
inputs. -/
def prim0 : Prim := ⟨fun _ => 0, fun _ => 0, fun _ => 0, fun _ => 0, fun _ => 0⟩

/-- `glam::Vec2` with exact scalars. -/
structure Vec2 where
  x : ℚ
  y : ℚ
deriving DecidableEq

/-- `glam::Vec3` with exact scalars. -/
structure Vec3 where
  x : ℚ
  y : ℚ
  z : ℚ
deriving DecidableEq

instance : Zero Vec3 := ⟨⟨0, 0, 0⟩⟩
instance : Add Vec3 := ⟨fun a b => ⟨a.x + b.x, a.y + b.y, a.z + b.z⟩⟩
instance : Sub Vec3 := ⟨fun a b => ⟨a.x - b.x, a.y - b.y, a.z - b.z⟩⟩
instance : Neg Vec3 := ⟨fun a => ⟨-a.x, -a.y, -a.z⟩⟩

/-- Scalar-times-vector, `f32 * Vec3` in glam. -/
instance : HMul ℚ Vec3 Vec3 := ⟨fun s v => ⟨s * v.x, s * v.y, s * v.z⟩⟩

/-- Vector-times-scalar, `Vec3 * f32` in glam. -/
instance : HMul Vec3 ℚ Vec3 := ⟨fun v s => ⟨v.x * s, v.y * s, v.z * s⟩⟩

/-- Component-wise product, `Vec3 * Vec3` in glam. -/
instance : HMul Vec3 Vec3 Vec3 := ⟨fun a b => ⟨a.x * b.x, a.y * b.y, a.z * b.z⟩⟩

instance : AddCommMonoid Vec3 where
  add_assoc a b c := by
    cases a with | mk ax ay az =>
    cases b with | mk bx bY bz =>
    cases c with | mk cx cy cz =>
    show Vec3.mk (ax + bx + cx) (ay + bY + cy) (az + bz + cz)
      = Vec3.mk (ax + (bx + cx)) (ay + (bY + cy)) (az + (bz + cz))
    rw [add_assoc ax, add_assoc ay, add_assoc az]
  zero_add a := by
    cases a with | mk ax ay az =>
    show Vec3.mk (0 + ax) (0 + ay) (0 + az) = Vec3.mk ax ay az
    rw [zero_add, zero_add, zero_add]
  add_zero a := by
    cases a with | mk ax ay az =>
    show Vec3.mk (ax + 0) (ay + 0) (az + 0) = Vec3.mk ax ay az
    rw [add_zero, add_zero, add_zero]
  add_comm a b := by
    cases a with | mk ax ay az =>
    cases b with | mk bx bY bz =>
    show Vec3.mk (ax + bx) (ay + bY) (az + bz)
      = Vec3.mk (bx + ax) (bY + ay) (bz + az)
    rw [add_comm ax, add_comm ay, add_comm az]
  nsmul := nsmulRec

/-- `Vec3::ZERO`. -/
def Vec3.ZERO : Vec3 := ⟨0, 0, 0⟩

/-- `Vec3::ONE`. -/
def Vec3.ONE : Vec3 := ⟨1, 1, 1⟩

/-- `Vec3::X`. -/
def Vec3.X : Vec3 := ⟨1, 0, 0⟩

/-- `Vec3::Z`. -/
def Vec3.Z : Vec3 := ⟨0, 0, 1⟩

/-- `Vec3::cross`. -/
def Vec3.cross (a b : Vec3) : Vec3 :=
  ⟨a.y * b.z - a.z * b.y, a.z * b.x - a.x * b.z, a.x * b.y - a.y * b.x⟩

/-- `Vec3::dot`. -/
def Vec3.dot (a b : Vec3) : ℚ := a.x * b.x + a.y * b.y + a.z * b.z

/-- `Vec3::normalize`: `self * (1 / length)`, with `length = sqrt (dot self
self)` taken from the primitive record. -/
def Vec3.normalize (P : Prim) (v : Vec3) : Vec3 :=
  (1 / P.sqrt (v.dot v)) * v

/-- `Vec3 + f32` (component-wise scalar addition in glam), used by
`get_color`'s `ro + 0.5`. -/
def Vec3.addScalar (v : Vec3) (s : ℚ) : Vec3 := ⟨v.x + s, v.y + s, v.z + s⟩

/-- `glam::Vec4` with exact scalars. -/
structure Vec4 where
  x : ℚ
  y : ℚ
  z : ℚ
  w : ℚ
deriving DecidableEq

/-- Scalar-times-vector for `Vec4`. -/
instance : HMul ℚ Vec4 Vec4 := ⟨fun s v => ⟨s * v.x, s * v.y, s * v.z, s * v.w⟩⟩

/-- `Vec3::extend`. -/
def Vec3.extend (v : Vec3) (w : ℚ) : Vec4 := ⟨v.x, v.y, v.z, w⟩

/-- `f32::lerp` / glam lerp: `a + (b - a) * t`. -/
def lerp (a b t : ℚ) : ℚ := a + (b - a) * t

/-- Extended `f32` value for the slab test: a finite exact value, one of the
two infinities, or `NaN`.  Finite values carry exact rationals. -/
inductive F32 where
  | fin (q : ℚ)
  | inf
  | ninf
  | nan
deriving DecidableEq

/-- `f32::min`: returns the other argument when one is `NaN`. -/
def F32.min : F32 → F32 → F32
  | .nan, b => b
  | a, .nan => a
  | .ninf, _ => .ninf
  | _, .ninf => .ninf
  | .inf, b => b
  | a, .inf => a
  | .fin a, .fin b => .fin (Min.min a b)

/-- `f32::max`: returns the other argument when one is `NaN`. -/
def F32.max : F32 → F32 → F32
  | .nan, b => b
  | a, .nan => a
  | .inf, _ => .inf
  | _, .inf => .inf
  | .ninf, b => b
  | a, .ninf => a
  | .fin a, .fin b => .fin (Max.max a b)

/-- IEEE `<=` on extended values; any comparison with `NaN` is false. -/
def F32.leB : F32 → F32 → Bool
  | .nan, _ => false
  | _, .nan => false
  | .ninf, _ => true
  | .fin _, .ninf => false
  | .inf, .ninf => false
  | .fin a, .fin b => decide (a ≤ b)
  | .fin _, .inf => true
  | .inf, .fin _ => false
  | .inf, .inf => true

/-- Projection of an extended value back to an exact scalar; the infinite and
`NaN` cases are mapped to `0` (they mark the boundary of the exact model). -/
def F32.toRat : F32 → ℚ
  | .fin q => q
  | _ => 0

/-- `1.0 / q` in `f32`: division of `1.0` by (positive) zero produces
`+inf`. -/
def F32.invQ (q : ℚ) : F32 :=
  if q = 0 then .inf else .fin (1 / q)

/-- Product of an extended value with a finite value, IEEE semantics
(`inf * 0 = NaN`). -/
def F32.mulQ : F32 → ℚ → F32
  | .fin a, q => .fin (a * q)
  | .inf, q => if 0 < q then .inf else if q < 0 then .ninf else .nan
  | .ninf, q => if 0 < q then .ninf else if q < 0 then .inf else .nan
  | .nan, _ => .nan

/-- `x / r` in `f32` for finite operands: division by (positive) zero gives a
sign-matching infinity, `0 / 0` gives `NaN`. -/
def F32.divQ (x r : ℚ) : F32 :=
  if r = 0 then (if 0 < x then .inf else if x < 0 then .ninf else .nan)
  else .fin (x / r)

/-- `intersect_ray_box` (src/geometry.rs): per-axis slab test using the
inverse ray direction, relying on IEEE infinities on the degenerate axes. -/
def intersect_ray_box (ro rd box_lo box_hi : Vec3) : Option (F32 × F32) :=
  let lox := (F32.invQ rd.x).mulQ (box_lo.x - ro.x)
  let loy := (F32.invQ rd.y).mulQ (box_lo.y - ro.y)
  let loz := (F32.invQ rd.z).mulQ (box_lo.z - ro.z)
  let hix := (F32.invQ rd.x).mulQ (box_hi.x - ro.x)
  let hiy := (F32.invQ rd.y).mulQ (box_hi.y - ro.y)
  let hiz := (F32.invQ rd.z).mulQ (box_hi.z - ro.z)
  let near := ((lox.min hix).max (loy.min hiy)).max (loz.min hiz)
  let far := ((lox.max hix).min (loy.max hiy)).min (loz.max hiz)
  if near.leB far then some (near, far) else none

/-- `Cell` (src/spherical.rs): a voxel holding a density and three 9-entry
spherical-harmonic coefficient arrays. -/
structure Cell where
  density : ℚ
  sh_r : Fin 9 → ℚ
  sh_g : Fin 9 → ℚ
  sh_b : Fin 9 → ℚ

/-- The all-zero cell (used as the out-of-bounds junk value of the model of
`get_unchecked`; the bounds theorems show it is never reached). -/
def Cell.zero : Cell := ⟨0, fun _ => 0, fun _ => 0, fun _ => 0⟩

/-- `Rust`'s `Iterator::reduce` with `+`: first element as initial
accumulator, `0` standing for the `None`-on-empty case (the source arrays
always have 9 entries). -/
def reduceAdd : List ℚ → ℚ
  | [] => 0
  | h :: t => t.foldl (· + ·) h

/-- The in-line basis array of `Cell::eval_sh` (src/spherical.rs lines
25-39). -/
def shCoeffArray (direction : Vec3) : List ℚ :=
  [ 0.28209479,
    -0.48860251 * direction.y,
    0.48860251 * direction.z,
    -0.48860251 * direction.x,
    1.0925484 * direction.x * direction.y,
    -1.0925484 * direction.y * direction.z,
    0.31539157 * (2 * direction.z * direction.z
      - direction.x * direction.x - direction.y * direction.y),
    -1.0925484 * direction.x * direction.z,
    0.5462742 * (direction.x * direction.x - direction.y * direction.y) ]

/-- `Cell::eval_sh`: zip the stored coefficients with the basis values,
multiply pointwise and reduce with `+`. -/
def Cell.eval_sh (direction : Vec3) (sh : Fin 9 → ℚ) : ℚ :=
  let sh_coeffs := shCoeffArray direction
  reduceAdd (((List.ofFn sh).zip sh_coeffs).map (fun p => p.1 * p.2))

/-- `CellValue` (src/spherical.rs). -/
structure CellValue where
  color : Vec3
  density : ℚ
deriving DecidableEq

/-- `CellValue::default`. -/
def CellValue.default : CellValue := ⟨Vec3.ZERO, 0⟩

/-- `Cell::eval`: the 3-vector of per-channel SH reconstructions plus the
stored density. -/
def Cell.eval (c : Cell) (direction : Vec3) : CellValue :=
  ⟨⟨Cell.eval_sh direction c.sh_r,
    Cell.eval_sh direction c.sh_g,
    Cell.eval_sh direction c.sh_b⟩, c.density⟩

/-- `impl Add for Cell`: component-wise. -/
instance : Add Cell :=
  ⟨fun a b => ⟨a.density + b.density,
    fun i => a.sh_r i + b.sh_r i,
    fun i => a.sh_g i + b.sh_g i,
    fun i => a.sh_b i + b.sh_b i⟩⟩

/-- `impl Mul<f32> for Cell`: scalar multiplication of every component. -/
instance : HMul Cell ℚ Cell :=
  ⟨fun c s => ⟨s * c.density,
    fun i => s * c.sh_r i,
    fun i => s * c.sh_g i,
    fun i => s * c.sh_b i⟩⟩

/-- `Cell::trilerp` (src/spherical.rs lines 60-71): blend the 8 stencil cells
with trilinear weights; value index bit pattern is `0bxyz` (`z` least
significant). -/
def Cell.trilerp (values : Fin 8 → Cell) (cs : ℚ × ℚ × ℚ) : Cell :=
  let x := cs.1; let y := cs.2.1; let z := cs.2.2
  let nx := 1 - x; let ny := 1 - y; let nz := 1 - z
  values 0 * nx * ny * nz
    + values 1 * nx * ny * z
    + values 2 * nx * y * nz
    + values 3 * nx * y * z
    + values 4 * x * ny * nz
    + values 5 * x * ny * z
    + values 6 * x * y * nz
    + values 7 * x * y * z

/-- `RadianceField` (src/spherical.rs): grid size and the flat cell
sequence.  The source invariant is `cells.length == size³`. -/
structure RadianceField where
  size : ℕ
  cells : List Cell

/-- `Rust`'s saturating float-to-`usize` cast `f as usize`: truncation toward
zero with negative values clamped to `0`, which on the exact scalars is
precisely the natural-number floor. -/
def ratToUsize (q : ℚ) : ℕ := ⌊q⌋₊

/-- `RadianceField::index_of`: row-major flattening `x + size·y + size²·z`. -/
def index_of (size : ℕ) (index : ℕ × ℕ × ℕ) : ℕ :=
  index.1 + size * index.2.1 + size * size * index.2.2

/-- `RadianceField::get`: checked fetch of the flattened index. -/
def RadianceField.get (f : RadianceField) (index : ℕ × ℕ × ℕ) : Option Cell :=
  f.cells.get? (index_of f.size index)

/-- `RadianceField::get_unchecked`: the model returns the junk cell
`Cell.zero` out of bounds (the source is undefined behaviour there; the
bounds theorems show the junk value is never produced). -/
def RadianceField.getUnchecked (f : RadianceField) (index : ℕ × ℕ × ℕ) : Cell :=
  f.cells.getD (index_of f.size index) Cell.zero

/-- `RadianceField::eval_by_index`. -/
def RadianceField.eval_by_index (f : RadianceField) (index : ℕ × ℕ × ℕ)
    (direction : Vec3) : Option CellValue :=
  (f.get index).map (fun c => c.eval direction)

/-- `RadianceField::eval_near`: truncate the scaled position per component
(`as usize`) and fetch. -/
def RadianceField.eval_near (f : RadianceField) (pos : Vec3) (direction : Vec3) :
    Option CellValue :=
  let index := (ratToUsize ((f.size : ℚ) * pos.x),
    ratToUsize ((f.size : ℚ) * pos.y),
    ratToUsize ((f.size : ℚ) * pos.z))
  f.eval_by_index index direction

/-- The epsilon margin of `eval_trilinear` (`const EPS: f32 = 0.01`). -/
def EPS : ℚ := 0.01

/-- `pos.x.floor() as usize` of the scaled position: floor then the
saturating cast, which coincides with `ratToUsize`. -/
def loIndex (spos : Vec3) : ℕ × ℕ × ℕ :=
  (ratToUsize spos.x, ratToUsize spos.y, ratToUsize spos.z)

/-- The `indices` array of `eval_trilinear` (src/spherical.rs lines
176-185). -/
def stencil (lo : ℕ × ℕ × ℕ) : Fin 8 → ℕ × ℕ × ℕ
  | 0 => (lo.1, lo.2.1, lo.2.2)
  | 1 => (lo.1, lo.2.1, lo.2.2 + 1)
  | 2 => (lo.1, lo.2.1 + 1, lo.2.2)
  | 3 => (lo.1, lo.2.1 + 1, lo.2.2 + 1)
  | 4 => (lo.1 + 1, lo.2.1, lo.2.2)
  | 5 => (lo.1 + 1, lo.2.1, lo.2.2 + 1)
  | 6 => (lo.1 + 1, lo.2.1 + 1, lo.2.2)
  | 7 => (lo.1 + 1, lo.2.1 + 1, lo.2.2 + 1)

/-- `fract_gl` of the scaled position: component-wise `q - ⌊q⌋`. -/
def fractGl (v : Vec3) : ℚ × ℚ × ℚ :=
  (v.x - ⌊v.x⌋, v.y - ⌊v.y⌋, v.z - ⌊v.z⌋)

/-- `RadianceField::eval_trilinear` (src/spherical.rs lines 155-196):
epsilon-margin rejection, floor index, `+1`-overflow rejection, unchecked
8-cell gather, trilinear blend, SH evaluation. -/
def RadianceField.eval_trilinear (f : RadianceField) (pos : Vec3)
    (direction : Vec3) : Option CellValue :=
  if pos.x < EPS ∨ pos.y < EPS ∨ pos.z < EPS
      ∨ pos.x > 1 - EPS ∨ pos.y > 1 - EPS ∨ pos.z > 1 - EPS then
    none
  else
    let spos := (f.size : ℚ) * pos
    let lo := loIndex spos
    if lo.1 + 1 ≥ f.size ∨ lo.2.1 + 1 ≥ f.size ∨ lo.2.2 + 1 ≥ f.size then
      none
    else
      let values := fun k : Fin 8 => f.getUnchecked (stencil lo k)
      let coeffs := fractGl spos
      let cell := Cell.trilerp values coeffs
      some (cell.eval direction)

/-- `Filtering` (src/spherical.rs). -/
inductive Filtering where
  | Nearest
  | Trilinear
deriving DecidableEq

/-- `RadianceField::eval`: dispatch on the filtering mode. -/
def RadianceField.eval (f : RadianceField) (pos : Vec3) (direction : Vec3) :
    Filtering → Option CellValue
  | .Nearest => f.eval_near pos direction
  | .Trilinear => f.eval_trilinear pos direction

/-- `RaymarchSettings` (src/render_cpu.rs): a bare step count, no
validation. -/
structure RaymarchSettings where
  n_steps : ℕ
deriving DecidableEq

/-- The `positions` iterator of `raymarch` (src/render_cpu.rs lines 38-40):
`n_steps` points `ro + rd * lerp(near, far, i / (n_steps - 1))`. -/
def raymarchPositions (ro rd : Vec3) (near far : ℚ) (settings : RaymarchSettings) :
    List Vec3 :=
  (List.range settings.n_steps).map (fun i : ℕ =>
    ro + rd * lerp near far ((i : ℚ) / ((settings.n_steps - 1 : ℕ) : ℚ)))

/-- The loop body of `raymarch`: accumulate the transmittance-weighted color
contribution, then update the running density sum. -/
def raymarchStep (P : Prim) (rd : Vec3) (get_info : Vec3 → Vec3 → CellValue)
    (step_size : ℚ) (acc : Vec3 × ℚ) (pos : Vec3) : Vec3 × ℚ :=
  let v := get_info pos rd
  (acc.1 + v.color * P.exp (-acc.2) * (1 - P.exp (-(v.density * step_size))),
    acc.2 + step_size * v.density)

/-- `raymarch` (src/render_cpu.rs lines 31-56). -/
def raymarch (P : Prim) (ro rd : Vec3) (near far : ℚ)
    (get_info : Vec3 → Vec3 → CellValue) (settings : RaymarchSettings) : Vec3 :=
  let step_size := (far - near) / (settings.n_steps : ℚ)
  ((raymarchPositions ro rd near far settings).foldl
    (raymarchStep P rd get_info step_size) (Vec3.ZERO, 0)).1

/-- `spherical_to_cartesian` (src/render_cpu.rs lines 9-15). -/
def spherical_to_cartesian (P : Prim) (radius theta phi : ℚ) : Vec3 :=
  radius * (⟨P.sin phi * P.sin theta, P.cos phi, P.sin phi * P.cos theta⟩ : Vec3)

/-- `Camera` (src/render_cpu.rs). -/
structure Camera where
  distance : ℚ
  theta : ℚ
  phi : ℚ
  vfov : ℚ
  target_pos : Vec3
deriving DecidableEq

/-- `RenderConfiguration` (src/render_cpu.rs): camera plus raymarch
settings. -/
structure RenderConfiguration where
  camera : Camera
  rm_settings : RaymarchSettings
deriving DecidableEq

/-- The camera-ray computation inlined in `get_color` (src/render_cpu.rs
lines 107-119; the same formula as `Camera::shoot_ray` in src/graphics.rs):
returns `(ray_origin, ray_direction)`. -/
def camera_ray (P : Prim) (cam : Camera) (screen_coord : Vec2) (aspect : ℚ) :
    Vec3 × Vec3 :=
  let camera_pos := cam.target_pos
    + spherical_to_cartesian P cam.distance cam.theta cam.phi
  let camera_direction := Vec3.normalize P (cam.target_pos - camera_pos)
  let camera_tangent := (-(P.sin cam.theta)) * Vec3.Z + P.cos cam.theta * Vec3.X
  let camera_bitangent := Vec3.cross camera_direction camera_tangent
  let fov_tan := P.tan (1/2 * cam.vfov)
  let ray_direction := Vec3.normalize P (camera_direction
    + (screen_coord.x / aspect) * fov_tan * camera_tangent
    + screen_coord.y * fov_tan * camera_bitangent)
  (camera_pos, ray_direction)

/-- The sampling closure `color_fn` of `get_color` (src/render_cpu.rs lines
127-134): trilinear field lookup at `ro + 0.5`, default on `None`, density
clamped to `≥ 0`, color mapped by `c * 0.5 + 0.5` and clamped to `[0,1]`. -/
def colorFn (field : RadianceField) (ro rd : Vec3) : CellValue :=
  let value := (field.eval (ro.addScalar (1/2)) rd Filtering.Trilinear).getD
    CellValue.default
  ⟨⟨Min.min (Max.max (value.color.x * (1/2) + 1/2) 0) 1,
    Min.min (Max.max (value.color.y * (1/2) + 1/2) 0) 1,
    Min.min (Max.max (value.color.z * (1/2) + 1/2) 0) 1⟩,
    Max.max value.density 0⟩

/-- `get_color` (src/render_cpu.rs lines 101-137).  The `near`/`far` slab
parameters cross from the extended `F32` domain into the exact scalars via
`F32.toRat` (exact on every finite value). -/
def get_color (P : Prim) (screen_coord : Vec2) (screen_width screen_height : ℕ)
    (field : RadianceField) (cfg : RenderConfiguration) : Vec3 :=
  let aspect := (screen_height : ℚ) / (screen_width : ℚ)
  let ray := camera_ray P cfg.camera screen_coord aspect
  match intersect_ray_box ray.1 ray.2
      ((-(1/2) : ℚ) * Vec3.ONE) ((1/2 : ℚ) * Vec3.ONE) with
  | none => Vec3.ZERO
  | some nf =>
    raymarch P ray.1 ray.2 ((nf.1.max (F32.fin 0)).toRat) nf.2.toRat
      (colorFn field) cfg.rm_settings

/-- `f32 as u8` after the clamp of `compact_color`: truncation of a value
already in `[0, 255]`. -/
def ratToByte (q : ℚ) : ℕ := (⌊Min.min (Max.max (255 * q) 0) 255⌋).toNat

/-- `compact_color` (src/render_cpu.rs lines 139-148): clamp `255 * color`
to `[0, 255]` and truncate each component to a byte. -/
def compact_color (color : Vec4) : ℕ × ℕ × ℕ × ℕ :=
  (ratToByte color.x, ratToByte color.y, ratToByte color.z, ratToByte color.w)

/-- The pixel-index-to-screen-coordinate map of `render_image_cpu`
(src/render_cpu.rs lines 157-161). -/
def pixelCoord (screen_width screen_height x y : ℕ) : Vec2 :=
  ⟨(((2 * x : ℕ) : ℚ) + 1/2) / ((screen_width - 1 : ℕ) : ℚ) - 1,
    (((2 * y : ℕ) : ℚ) + 1/2) / ((screen_height - 1 : ℕ) : ℚ) - 1⟩

/-- `render_image_cpu` (src/render_cpu.rs lines 150-169), as the list of
packed RGBA pixels indexed by `i = y * width + x` (the parallel iterator
collects in pixel-index order). -/
def render_image_cpu (P : Prim) (screen_width screen_height : ℕ)
    (field : RadianceField) (cfg : RenderConfiguration) : List (ℕ × ℕ × ℕ × ℕ) :=
  (List.range (screen_width * screen_height)).map (fun i =>
    compact_color ((get_color P
      (pixelCoord screen_width screen_height (i % screen_width) (i / screen_width))
      screen_width screen_height field cfg).extend 1))

/-- `radiance_field_to_textures` (src/render_gpu.rs lines 123-149), texels as
`(sh_r i, sh_g i, sh_b i, density)` quadruples.  The `assert!` on
divisibility by the batch size 64 is modelled as `none`. -/
def radiance_field_to_textures (field : RadianceField) :
    Option (List (List (ℚ × ℚ × ℚ × ℚ))) :=
  if field.size % 64 = 0 then
    some ((List.range (field.size / 64)).map (fun batch_index =>
      let volume := field.size * field.size * 64
      let batch := (field.cells.drop (batch_index * volume)).take volume
      ((List.finRange 9).map (fun i =>
        batch.map (fun cell => (cell.sh_r i, cell.sh_g i, cell.sh_b i, cell.density)))).flatten))
  else
    none

/-!  Concrete inputs used to instantiate theorems with hypotheses. -/

/-- A concrete `size = 2` field whose eight cells have pairwise distinct
densities `0, ..., 7` (cell `k` has density `k`). -/
def field2 : RadianceField :=
  ⟨2, [Cell.zero, { Cell.zero with density := 1 }, { Cell.zero with density := 2 },
    { Cell.zero with density := 3 }, { Cell.zero with density := 4 },
    { Cell.zero with density := 5 }, { Cell.zero with density := 6 },
    { Cell.zero with density := 7 }]⟩

/-- The empty field of size 0. -/
def field0 : RadianceField := ⟨0, []⟩

/-- A size-1 field with a single cell. -/
def field1 : RadianceField := ⟨1, [Cell.zero]⟩

/-- Modelled after the claim text of C7: the nine real spherical-harmonic
basis values of degree at most 2, with the exact constants the claim lists,
as a function of the evaluation direction.  Compared against the source
definition `Cell.eval_sh` by `eval_sh_dot_product`. -/
def claimBasis (d : Vec3) : Fin 9 → ℚ
  | 0 => 0.28209479
  | 1 => -0.48860251 * d.y
  | 2 => 0.48860251 * d.z
  | 3 => -0.48860251 * d.x
  | 4 => 1.0925484 * d.x * d.y
  | 5 => -1.0925484 * d.y * d.z
  | 6 => 0.31539157 * (2 * d.z * d.z - d.x * d.x - d.y * d.y)
  | 7 => -1.0925484 * d.x * d.z
  | 8 => 0.5462742 * (d.x * d.x - d.y * d.y)

/-!  Helper lemmas. -/

theorem Vec3.zero_def : (0 : Vec3) = ⟨0, 0, 0⟩ := rfl

theorem Vec3.add_def (a b : Vec3) : a + b = ⟨a.x + b.x, a.y + b.y, a.z + b.z⟩ := rfl

theorem get_isSome_iff {α : Type} (l : List α) (n : ℕ) :
    (l.get? n).isSome ↔ n < l.length := by
  rw [List.get?_eq_getElem?]
  cases h : l[n]? with
  | none => simp [List.getElem?_eq_none_iff.mp h]
  | some v => simp [(List.getElem?_eq_some.mp h).1]

theorem F32.mulQ_invQ (r x : ℚ) : (F32.invQ r).mulQ x = F32.divQ x r := by
  unfold F32.invQ F32.divQ F32.mulQ
  by_cases hr : r = 0
  · simp [hr]
  · simp only [hr, if_false]
    congr 1
    field_simp

/-- C2: `intersect_ray_box` computes the per-axis slab parameters
`t1 = (box_lo - ro) / rd` and `t2 = (box_hi - ro) / rd`, takes
`near = max` over axes of `min t1 t2` and `far = min` over axes of
`max t1 t2`, and returns `some (near, far)` exactly when `near ≤ far`
(`none` otherwise); the returned parameters may be negative (second
conjunct: origin inside the box gives `near = -1/2 < 0`); for the box
`[-1/2, 1/2]³`, origin `(0,0,-2)` and direction `(0,0,1)` it returns
`some (3/2, 5/2)`. -/
theorem intersect_ray_box_slab_spec :
    (∀ ro rd box_lo box_hi : Vec3,
      intersect_ray_box ro rd box_lo box_hi =
        (let t1x := F32.divQ (box_lo.x - ro.x) rd.x
         let t2x := F32.divQ (box_hi.x - ro.x) rd.x
         let t1y := F32.divQ (box_lo.y - ro.y) rd.y
         let t2y := F32.divQ (box_hi.y - ro.y) rd.y
         let t1z := F32.divQ (box_lo.z - ro.z) rd.z
         let t2z := F32.divQ (box_hi.z - ro.z) rd.z
         let near := ((t1x.min t2x).max (t1y.min t2y)).max (t1z.min t2z)
         let far := ((t1x.max t2x).min (t1y.max t2y)).min (t1z.max t2z)
         if near.leB far then some (near, far) else none))
    ∧ intersect_ray_box ⟨0, 0, 0⟩ ⟨0, 0, 1⟩
        ⟨-(1/2), -(1/2), -(1/2)⟩ ⟨1/2, 1/2, 1/2⟩
        = some (.fin (-(1/2)), .fin (1/2))
    ∧ intersect_ray_box ⟨0, 0, -2⟩ ⟨0, 0, 1⟩
        ⟨-(1/2), -(1/2), -(1/2)⟩ ⟨1/2, 1/2, 1/2⟩
        = some (.fin (3/2), .fin (5/2)) := by
  refine ⟨fun ro rd box_lo box_hi => ?_, ?_, ?_⟩
  · simp only [intersect_ray_box, F32.mulQ_invQ]
  · norm_num [intersect_ray_box, F32.invQ, F32.mulQ, F32.min, F32.max,
      F32.leB, min_def, max_def]
  · norm_num [intersect_ray_box, F32.invQ, F32.mulQ, F32.min, F32.max,
      F32.leB, min_def, max_def]

/-- C7: `Cell::eval_sh` returns the dot product of the 9 stored coefficients
with the 9 real spherical-harmonic basis values (the exact constants of
`claimBasis`); `Cell::eval` is the 3-vector of the per-channel results plus
the stored density; for direction `(0,0,1)` and coefficients
`[1,0,0,0,0,0,0,0,0]` the per-channel result is exactly `0.28209479`. -/
theorem eval_sh_dot_product :
    (∀ (direction : Vec3) (sh : Fin 9 → ℚ),
      Cell.eval_sh direction sh = ∑ i : Fin 9, sh i * claimBasis direction i)
    ∧ (∀ (c : Cell) (direction : Vec3),
      c.eval direction =
        ⟨⟨Cell.eval_sh direction c.sh_r, Cell.eval_sh direction c.sh_g,
          Cell.eval_sh direction c.sh_b⟩, c.density⟩)
    ∧ Cell.eval_sh ⟨0, 0, 1⟩ (fun i => if (i : ℕ) = 0 then 1 else 0)
        = 0.28209479 := by
  refine ⟨fun direction sh => ?_, fun c direction => rfl, ?_⟩
  · simp only [Cell.eval_sh, shCoeffArray, List.ofFn_succ, List.zip_cons_cons,
      List.map_cons, List.zip_nil_right, List.map_nil, reduceAdd,
      List.foldl_cons, List.foldl_nil]
    rw [Fin.sum_univ_succ, Fin.sum_univ_eight]
    simp only [claimBasis, Fin.isValue, Fin.succ_zero_eq_one]
    norm_num [Fin.succ]
    ring
  · norm_num [Cell.eval_sh, shCoeffArray, List.ofFn_succ, reduceAdd,
      Fin.val_succ]

/-- C10: `raymarch` with `n_steps = 0` produces the empty sample-position
sequence, never calls the sample function (the result does not depend on
it), never evaluates the `i / (n_steps - 1)` position formula, and returns
exactly the zero color without failing. -/
theorem raymarch_zero_steps :
    ∀ (P : Prim) (ro rd : Vec3) (near far : ℚ)
      (get_info : Vec3 → Vec3 → CellValue),
      raymarchPositions ro rd near far ⟨0⟩ = []
      ∧ raymarch P ro rd near far get_info ⟨0⟩ = ⟨0, 0, 0⟩
      ∧ (∀ get_info2 : Vec3 → Vec3 → CellValue,
          raymarch P ro rd near far get_info ⟨0⟩
            = raymarch P ro rd near far get_info2 ⟨0⟩) := by
  intro P ro rd near far get_info
  refine ⟨rfl, rfl, fun get_info2 => rfl⟩

/-- C5 counterexample: no validation exists at the configuration-construction
boundary.  A `RaymarchSettings` with `n_steps = 0 < 2` is constructed by the
plain (public-field) constructor, sits inside a `RenderConfiguration`, and
`raymarch` runs with it without any failure, returning the zero color. -/
theorem raymarch_settings_below_two_accepted :
    (RaymarchSettings.mk 0).n_steps < 2
    ∧ (RenderConfiguration.mk ⟨1, 0, 0, 0, Vec3.ZERO⟩ ⟨0⟩).rm_settings.n_steps < 2
    ∧ raymarch prim0 Vec3.ZERO Vec3.Z 0 1 (fun _ _ => ⟨⟨1, 1, 1⟩, 1⟩) ⟨0⟩
        = ⟨0, 0, 0⟩ :=
  ⟨by norm_num, by norm_num, rfl⟩

/-- C5 (amended): neither `RaymarchSettings` nor `RenderConfiguration`
constrains `n_steps` — both are plain constructors accepting every value,
including values below 2, and such settings reach `raymarch`, which executes
without failure (with `n_steps = 0` it returns the zero color). -/
theorem raymarch_settings_unvalidated :
    ∀ (n : ℕ) (cam : Camera),
      (RaymarchSettings.mk n).n_steps = n
      ∧ (RenderConfiguration.mk cam (RaymarchSettings.mk n)).rm_settings
          = RaymarchSettings.mk n
      ∧ (∀ (P : Prim) (ro rd : Vec3) (near far : ℚ)
          (get_info : Vec3 → Vec3 → CellValue),
          raymarch P ro rd near far get_info (RaymarchSettings.mk 0)
            = ⟨0, 0, 0⟩) :=
  fun _ _ => ⟨rfl, rfl, fun _ _ _ _ _ _ => rfl⟩

/-- C4 counterexample: for the size-2 field `field2` (which satisfies
`cells.length = size³`) and position `(3/2, 0, 0)`, the truncated scaled
index has x-component `3`, which is not in `[0, size)` — the claim demands
`None` — yet `eval_near` returns `Some`, and the fetched cell is the one at
flat index 3 (density 3, the cell with 3-D index `(1, 1, 0)`), not a cell at
the out-of-range 3-D index `(3, 0, 0)`. -/
theorem eval_near_out_of_range_some :
    field2.cells.length = field2.size ^ 3
    ∧ ratToUsize ((field2.size : ℚ) * (3/2 : ℚ)) = 3
    ∧ ¬(3 : ℕ) < field2.size
    ∧ field2.eval_near ⟨3/2, 0, 0⟩ ⟨0, 0, 1⟩ = some ⟨⟨0, 0, 0⟩, 3⟩ := by
  refine ⟨rfl, by norm_num [ratToUsize, field2], by norm_num [field2], ?_⟩
  norm_num [RadianceField.eval_near, RadianceField.eval_by_index,
    RadianceField.get, ratToUsize, field2, index_of, Cell.eval,
    Cell.eval_sh, shCoeffArray, reduceAdd, List.ofFn_succ, Cell.zero]

/-- C4 (amended): under the invariant `cells.length = size³`, `eval_near`
returns `Some` exactly when the flattened truncated scaled index
`x + size·y + size²·z` is below `size³` — a strictly weaker condition than
every component lying in `[0, size)` — and the value it returns is the SH
evaluation of the cell stored at that flat index (so a component `≥ size`
can wrap around to a different cell instead of being rejected; negative
coordinates saturate to component 0). -/
theorem eval_near_flat_index_bounds (f : RadianceField)
    (h : f.cells.length = f.size ^ 3) (pos direction : Vec3) :
    (let idx := (ratToUsize ((f.size : ℚ) * pos.x),
      ratToUsize ((f.size : ℚ) * pos.y), ratToUsize ((f.size : ℚ) * pos.z))
     ((f.eval_near pos direction).isSome ↔ index_of f.size idx < f.size ^ 3)
     ∧ (∀ c : Cell, f.cells.get? (index_of f.size idx) = some c →
        f.eval_near pos direction = some (c.eval direction))) := by
  refine ⟨?_, ?_⟩
  · simp only [RadianceField.eval_near, RadianceField.eval_by_index,
      RadianceField.get]
    have hmap : ∀ (o : Option Cell) (g : Cell → CellValue),
        (o.map g).isSome = o.isSome := by
      intro o g; cases o <;> rfl
    rw [hmap, get_isSome_iff, h]
  · intro c hc
    simp only [RadianceField.eval_near, RadianceField.eval_by_index,
      RadianceField.get]
    rw [hc]
    rfl

/-- Witness for `eval_near_flat_index_bounds` at the concrete field
`field2` and position `(3/2, 0, 0)`. -/
theorem eval_near_flat_index_bounds_witness :
    field2.cells.length = field2.size ^ 3
    ∧ (let idx := (ratToUsize ((field2.size : ℚ) * (3/2 : ℚ)),
        ratToUsize ((field2.size : ℚ) * (0 : ℚ)),
        ratToUsize ((field2.size : ℚ) * (0 : ℚ)))
       ((field2.eval_near ⟨3/2, 0, 0⟩ ⟨0, 0, 1⟩).isSome
          ↔ index_of field2.size idx < field2.size ^ 3)
       ∧ (∀ c : Cell, field2.cells.get? (index_of field2.size idx) = some c →
          field2.eval_near ⟨3/2, 0, 0⟩ ⟨0, 0, 1⟩ = some (c.eval ⟨0, 0, 1⟩))) :=
  ⟨rfl, eval_near_flat_index_bounds field2 rfl ⟨3/2, 0, 0⟩ ⟨0, 0, 1⟩⟩

/-- Unfolding lemma for the scalar-times-`Vec3` instance. -/
theorem Vec3.smul_def (s : ℚ) (v : Vec3) :
    s * v = ⟨s * v.x, s * v.y, s * v.z⟩ := rfl

/-- Unfolding lemma for the `Vec3`-times-scalar instance. -/
theorem Vec3.mul_scalar_def (v : Vec3) (s : ℚ) :
    v * s = ⟨v.x * s, v.y * s, v.z * s⟩ := rfl

/-- The loop of `raymarch` as a closed sum: after folding the step function
over the first `n` positions, the color accumulator holds the
transmittance-weighted sum and the density accumulator holds the prefix
density sum. -/
theorem raymarch_foldl (P : Prim) (rd : Vec3) (g : Vec3 → Vec3 → CellValue)
    (ss : ℚ) (posf : ℕ → Vec3) (n : ℕ) :
    ((List.range n).map posf).foldl (raymarchStep P rd g ss) (Vec3.ZERO, 0)
      = (∑ i in Finset.range n,
          (g (posf i) rd).color
            * P.exp (-(∑ j in Finset.range i, ss * (g (posf j) rd).density))
            * (1 - P.exp (-((g (posf i) rd).density * ss))),
         ∑ j in Finset.range n, ss * (g (posf j) rd).density) := by
  induction n with
  | zero => simp [Vec3.ZERO]; rfl
  | succ n ih =>
    rw [List.range_succ, List.map_append, List.foldl_append, ih]
    simp only [List.map_cons, List.map_nil, List.foldl_cons, List.foldl_nil,
      raymarchStep, Finset.sum_range_succ]

/-- C1: for every origin, direction, `near`, `far`, sample function and
settings with `n_steps ≥ 2`, `raymarch` returns the sum over
`i = 0, ..., n_steps - 1` of
`c i * exp (-Σ_{j<i} step_size * d j) * (1 - exp (-(step_size * d i)))`,
where `step_size = (far - near) / n_steps` and `(c i, d i)` is the sample
function applied at `origin + direction * lerp near far (i / (n_steps - 1))`
together with the ray direction; the transmittance factor of step `i` sums
only the densities of the strictly earlier steps. -/
theorem raymarch_front_to_back (P : Prim) (ro rd : Vec3) (near far : ℚ)
    (get_info : Vec3 → Vec3 → CellValue) (settings : RaymarchSettings)
    (_hn : 2 ≤ settings.n_steps) :
    raymarch P ro rd near far get_info settings =
      (let step_size := (far - near) / (settings.n_steps : ℚ)
       let pos := fun i : ℕ =>
         ro + rd * lerp near far ((i : ℚ) / ((settings.n_steps - 1 : ℕ) : ℚ))
       let c := fun i : ℕ => (get_info (pos i) rd).color
       let d := fun i : ℕ => (get_info (pos i) rd).density
       ∑ i in Finset.range settings.n_steps,
         c i * P.exp (-(∑ j in Finset.range i, step_size * d j))
           * (1 - P.exp (-(step_size * d i)))) := by
  simp only [raymarch, raymarchPositions, raymarch_foldl]
  apply Finset.sum_congr rfl
  intro i _
  have hcomm : -((get_info (ro + rd * lerp near far
        ((i : ℚ) / ((settings.n_steps - 1 : ℕ) : ℚ))) rd).density
      * ((far - near) / (settings.n_steps : ℚ)))
      = -((far - near) / (settings.n_steps : ℚ)
        * (get_info (ro + rd * lerp near far
            ((i : ℚ) / ((settings.n_steps - 1 : ℕ) : ℚ))) rd).density) := by
    ring
  rw [hcomm]

/-- Witness for `raymarch_front_to_back` at the constant sample function
`(1,1,1) / 1`, `near = 0`, `far = 1` and two steps. -/
theorem raymarch_front_to_back_witness :
    2 ≤ (RaymarchSettings.mk 2).n_steps
    ∧ raymarch prim0 ⟨0, 0, 0⟩ ⟨0, 0, 1⟩ 0 1
        (fun _ _ => ⟨⟨1, 1, 1⟩, 1⟩) (RaymarchSettings.mk 2)
      = (let step_size := ((1 : ℚ) - 0) / (((RaymarchSettings.mk 2).n_steps : ℕ) : ℚ)
         let pos := fun i : ℕ => (⟨0, 0, 0⟩ : Vec3) + (⟨0, 0, 1⟩ : Vec3)
           * lerp 0 1 ((i : ℚ) / (((RaymarchSettings.mk 2).n_steps - 1 : ℕ) : ℚ))
         let c := fun i : ℕ =>
           ((fun (_ : Vec3) (_ : Vec3) => (⟨⟨1, 1, 1⟩, 1⟩ : CellValue))
             (pos i) (⟨0, 0, 1⟩ : Vec3)).color
         let d := fun i : ℕ =>
           ((fun (_ : Vec3) (_ : Vec3) => (⟨⟨1, 1, 1⟩, 1⟩ : CellValue))
             (pos i) (⟨0, 0, 1⟩ : Vec3)).density
         ∑ i in Finset.range (RaymarchSettings.mk 2).n_steps,
           c i * prim0.exp (-(∑ j in Finset.range i, step_size * d j))
             * (1 - prim0.exp (-(step_size * d i)))) := by
  refine ⟨by norm_num, ?_⟩
  exact raymarch_front_to_back prim0 ⟨0, 0, 0⟩ ⟨0, 0, 1⟩ 0 1
    (fun _ _ => ⟨⟨1, 1, 1⟩, 1⟩) (RaymarchSettings.mk 2) (by norm_num)

/-- Flattened 3-D index bound: components below `size` give a flat index
below `size³`. -/
theorem index_of_lt_cube {s : ℕ} {i : ℕ × ℕ × ℕ}
    (h1 : i.1 < s) (h2 : i.2.1 < s) (h3 : i.2.2 < s) :
    index_of s i < s ^ 3 := by
  unfold index_of
  have hs : s ^ 3 = s * s * s := by ring
  rw [hs]
  calc i.1 + s * i.2.1 + s * s * i.2.2 + 1
      ≤ s + s * i.2.1 + s * s * i.2.2 := by omega
    _ = s * (1 + i.2.1) + s * s * i.2.2 := by ring
    _ ≤ s * s + s * s * i.2.2 := by
        have h : 1 + i.2.1 ≤ s := by omega
        have := Nat.mul_le_mul_left s h
        omega
    _ = s * s * (1 + i.2.2) := by ring
    _ ≤ s * s * s := by
        have h : 1 + i.2.2 ≤ s := by omega
        exact Nat.mul_le_mul_left (s * s) h

/-- The epsilon-margin rejection of `eval_trilinear`, stated for the margin
measured in scaled units (after multiplication by the grid size): a scaled
distance of at most `EPS` to a face of the scaled cube `[0, size]³` forces
`none`. -/
theorem trilinear_scaled_margin_aux (f : RadianceField) (pos direction : Vec3)
    (h : (f.size : ℚ) * pos.x ≤ EPS ∨ (f.size : ℚ) * pos.y ≤ EPS
      ∨ (f.size : ℚ) * pos.z ≤ EPS
      ∨ (f.size : ℚ) - EPS ≤ (f.size : ℚ) * pos.x
      ∨ (f.size : ℚ) - EPS ≤ (f.size : ℚ) * pos.y
      ∨ (f.size : ℚ) - EPS ≤ (f.size : ℚ) * pos.z) :
    f.eval_trilinear pos direction = none := by
  unfold RadianceField.eval_trilinear
  by_cases hif : (pos.x < EPS ∨ pos.y < EPS ∨ pos.z < EPS
      ∨ pos.x > 1 - EPS ∨ pos.y > 1 - EPS ∨ pos.z > 1 - EPS)
  · rw [if_pos hif]
  · rw [if_neg hif]
    push_neg at hif
    obtain ⟨h1, h2, h3, h4, h5, h6⟩ := hif
    have hsize : f.size ≤ 1 := by
      by_contra hs
      push_neg at hs
      have hs2 : (2 : ℚ) ≤ (f.size : ℚ) := by exact_mod_cast hs
      have hepos : (0 : ℚ) < EPS := by norm_num [EPS]
      rcases h with h | h | h | h | h | h
      · nlinarith
      · nlinarith
      · nlinarith
      · nlinarith
      · nlinarith
      · nlinarith
    rw [if_pos]
    left
    omega

/-- Under both rejection tests of `eval_trilinear`, every component of every
stencil index stays strictly below the grid size. -/
theorem stencil_lt_aux (size : ℕ) (lo : ℕ × ℕ × ℕ)
    (hg : ¬(lo.1 + 1 ≥ size ∨ lo.2.1 + 1 ≥ size ∨ lo.2.2 + 1 ≥ size)) :
    ∀ k : Fin 8, (stencil lo k).1 < size ∧ (stencil lo k).2.1 < size
      ∧ (stencil lo k).2.2 < size := by
  push_neg at hg
  obtain ⟨hx, hy, hz⟩ := hg
  intro k
  fin_cases k <;> simp only [stencil] <;> omega

/-- C3: trilinear sampling returns `none` whenever the queried position lies
within an epsilon margin of `0.01` in scaled units (the position multiplied
by the grid size) of any face of the scaled sampling cube `[0, size]³`
(first conjunct; the source check `pos < 0.01 ∨ pos > 1 - 0.01` in unit-cube
coordinates is an `0.01 · size`-wide scaled margin and hence implies this),
and when sampling does proceed past the rejection tests the 8-neighbor
stencil gathered afterwards stays inside the grid in every component
(second conjunct). -/
theorem eval_trilinear_boundary_margin :
    (∀ (f : RadianceField) (pos direction : Vec3),
      ((f.size : ℚ) * pos.x ≤ EPS ∨ (f.size : ℚ) * pos.y ≤ EPS
        ∨ (f.size : ℚ) * pos.z ≤ EPS
        ∨ (f.size : ℚ) - EPS ≤ (f.size : ℚ) * pos.x
        ∨ (f.size : ℚ) - EPS ≤ (f.size : ℚ) * pos.y
        ∨ (f.size : ℚ) - EPS ≤ (f.size : ℚ) * pos.z) →
      f.eval_trilinear pos direction = none)
    ∧ (∀ (f : RadianceField) (pos : Vec3),
      ¬(pos.x < EPS ∨ pos.y < EPS ∨ pos.z < EPS
        ∨ pos.x > 1 - EPS ∨ pos.y > 1 - EPS ∨ pos.z > 1 - EPS) →
      ¬((loIndex ((f.size : ℚ) * pos)).1 + 1 ≥ f.size
        ∨ (loIndex ((f.size : ℚ) * pos)).2.1 + 1 ≥ f.size
        ∨ (loIndex ((f.size : ℚ) * pos)).2.2 + 1 ≥ f.size) →
      ∀ k : Fin 8,
        (stencil (loIndex ((f.size : ℚ) * pos)) k).1 < f.size
        ∧ (stencil (loIndex ((f.size : ℚ) * pos)) k).2.1 < f.size
        ∧ (stencil (loIndex ((f.size : ℚ) * pos)) k).2.2 < f.size) := by
  refine ⟨trilinear_scaled_margin_aux, ?_⟩
  intro f pos _ hg
  exact stencil_lt_aux f.size (loIndex ((f.size : ℚ) * pos)) hg

/-- Witness for `eval_trilinear_boundary_margin`: the size-2 field at the
boundary-adjacent position `(1/400, 1/4, 1/4)` (scaled x-distance
`1/200 ≤ EPS`) is rejected, and at the interior position `(1/4, 1/4, 1/4)`
both tests pass and the stencil components stay below 2. -/
theorem eval_trilinear_boundary_margin_witness :
    ((field2.size : ℚ) * ((⟨1/400, 1/4, 1/4⟩ : Vec3)).x ≤ EPS
      ∨ (field2.size : ℚ) * ((⟨1/400, 1/4, 1/4⟩ : Vec3)).y ≤ EPS
      ∨ (field2.size : ℚ) * ((⟨1/400, 1/4, 1/4⟩ : Vec3)).z ≤ EPS
      ∨ (field2.size : ℚ) - EPS ≤ (field2.size : ℚ) * ((⟨1/400, 1/4, 1/4⟩ : Vec3)).x
      ∨ (field2.size : ℚ) - EPS ≤ (field2.size : ℚ) * ((⟨1/400, 1/4, 1/4⟩ : Vec3)).y
      ∨ (field2.size : ℚ) - EPS ≤ (field2.size : ℚ) * ((⟨1/400, 1/4, 1/4⟩ : Vec3)).z)
    ∧ field2.eval_trilinear ⟨1/400, 1/4, 1/4⟩ ⟨0, 0, 1⟩ = none
    ∧ ¬(((⟨1/4, 1/4, 1/4⟩ : Vec3)).x < EPS ∨ ((⟨1/4, 1/4, 1/4⟩ : Vec3)).y < EPS
        ∨ ((⟨1/4, 1/4, 1/4⟩ : Vec3)).z < EPS
        ∨ ((⟨1/4, 1/4, 1/4⟩ : Vec3)).x > 1 - EPS
        ∨ ((⟨1/4, 1/4, 1/4⟩ : Vec3)).y > 1 - EPS
        ∨ ((⟨1/4, 1/4, 1/4⟩ : Vec3)).z > 1 - EPS)
    ∧ ¬((loIndex ((field2.size : ℚ) * (⟨1/4, 1/4, 1/4⟩ : Vec3))).1 + 1 ≥ field2.size
        ∨ (loIndex ((field2.size : ℚ) * (⟨1/4, 1/4, 1/4⟩ : Vec3))).2.1 + 1 ≥ field2.size
        ∨ (loIndex ((field2.size : ℚ) * (⟨1/4, 1/4, 1/4⟩ : Vec3))).2.2 + 1 ≥ field2.size)
    ∧ (∀ k : Fin 8,
        (stencil (loIndex ((field2.size : ℚ) * (⟨1/4, 1/4, 1/4⟩ : Vec3))) k).1 < field2.size
        ∧ (stencil (loIndex ((field2.size : ℚ) * (⟨1/4, 1/4, 1/4⟩ : Vec3))) k).2.1 < field2.size
        ∧ (stencil (loIndex ((field2.size : ℚ) * (⟨1/4, 1/4, 1/4⟩ : Vec3))) k).2.2 < field2.size) := by
  have h1 : ((field2.size : ℚ) * ((⟨1/400, 1/4, 1/4⟩ : Vec3)).x ≤ EPS
      ∨ (field2.size : ℚ) * ((⟨1/400, 1/4, 1/4⟩ : Vec3)).y ≤ EPS
      ∨ (field2.size : ℚ) * ((⟨1/400, 1/4, 1/4⟩ : Vec3)).z ≤ EPS
      ∨ (field2.size : ℚ) - EPS ≤ (field2.size : ℚ) * ((⟨1/400, 1/4, 1/4⟩ : Vec3)).x
      ∨ (field2.size : ℚ) - EPS ≤ (field2.size : ℚ) * ((⟨1/400, 1/4, 1/4⟩ : Vec3)).y
      ∨ (field2.size : ℚ) - EPS ≤ (field2.size : ℚ) * ((⟨1/400, 1/4, 1/4⟩ : Vec3)).z) := by
    left
    norm_num [EPS, field2]
  have h2 : ¬(((⟨1/4, 1/4, 1/4⟩ : Vec3)).x < EPS ∨ ((⟨1/4, 1/4, 1/4⟩ : Vec3)).y < EPS
      ∨ ((⟨1/4, 1/4, 1/4⟩ : Vec3)).z < EPS
      ∨ ((⟨1/4, 1/4, 1/4⟩ : Vec3)).x > 1 - EPS
      ∨ ((⟨1/4, 1/4, 1/4⟩ : Vec3)).y > 1 - EPS
      ∨ ((⟨1/4, 1/4, 1/4⟩ : Vec3)).z > 1 - EPS) := by
    norm_num [EPS]
  have h3 : ¬((loIndex ((field2.size : ℚ) * (⟨1/4, 1/4, 1/4⟩ : Vec3))).1 + 1 ≥ field2.size
      ∨ (loIndex ((field2.size : ℚ) * (⟨1/4, 1/4, 1/4⟩ : Vec3))).2.1 + 1 ≥ field2.size
      ∨ (loIndex ((field2.size : ℚ) * (⟨1/4, 1/4, 1/4⟩ : Vec3))).2.2 + 1 ≥ field2.size) := by
    have hfl : (⌊(1 : ℚ) / 2⌋₊ : ℕ) = 0 := Nat.floor_eq_zero.mpr (by norm_num)
    norm_num [loIndex, ratToUsize, field2, Vec3.smul_def, hfl]
  exact ⟨h1, eval_trilinear_boundary_margin.1 field2 ⟨1/400, 1/4, 1/4⟩ ⟨0, 0, 1⟩ h1,
    h2, h3, eval_trilinear_boundary_margin.2 field2 ⟨1/4, 1/4, 1/4⟩ h2 h3⟩

/-- C8: for every field satisfying the invariant `cells.length = size³` and
every position passing both the epsilon-margin test and the
`lo_index + 1 < size` test, each of the 8 flattened stencil indices
`x + size·y + size²·z` gathered by the unchecked fetch of `eval_trilinear`
is strictly below `cells.length`, and `eval_trilinear` then returns
`Some`. -/
theorem eval_trilinear_gather_in_bounds :
    ∀ (f : RadianceField) (pos direction : Vec3),
      f.cells.length = f.size ^ 3 →
      ¬(pos.x < EPS ∨ pos.y < EPS ∨ pos.z < EPS
        ∨ pos.x > 1 - EPS ∨ pos.y > 1 - EPS ∨ pos.z > 1 - EPS) →
      ¬((loIndex ((f.size : ℚ) * pos)).1 + 1 ≥ f.size
        ∨ (loIndex ((f.size : ℚ) * pos)).2.1 + 1 ≥ f.size
        ∨ (loIndex ((f.size : ℚ) * pos)).2.2 + 1 ≥ f.size) →
      (∀ k : Fin 8,
        index_of f.size (stencil (loIndex ((f.size : ℚ) * pos)) k)
          < f.cells.length)
      ∧ (f.eval_trilinear pos direction).isSome = true := by
  intro f pos direction hlen hm hg
  constructor
  · intro k
    obtain ⟨hx, hy, hz⟩ := stencil_lt_aux f.size (loIndex ((f.size : ℚ) * pos)) hg k
    rw [hlen]
    exact index_of_lt_cube hx hy hz
  · simp only [RadianceField.eval_trilinear, if_neg hm, if_neg hg,
      Option.isSome_some]

/-- Witness for `eval_trilinear_gather_in_bounds` at the size-2 field and
the interior position `(1/4, 1/4, 1/4)`. -/
theorem eval_trilinear_gather_in_bounds_witness :
    field2.cells.length = field2.size ^ 3
    ∧ ¬(((⟨1/4, 1/4, 1/4⟩ : Vec3)).x < EPS ∨ ((⟨1/4, 1/4, 1/4⟩ : Vec3)).y < EPS
        ∨ ((⟨1/4, 1/4, 1/4⟩ : Vec3)).z < EPS
        ∨ ((⟨1/4, 1/4, 1/4⟩ : Vec3)).x > 1 - EPS
        ∨ ((⟨1/4, 1/4, 1/4⟩ : Vec3)).y > 1 - EPS
        ∨ ((⟨1/4, 1/4, 1/4⟩ : Vec3)).z > 1 - EPS)
    ∧ ¬((loIndex ((field2.size : ℚ) * (⟨1/4, 1/4, 1/4⟩ : Vec3))).1 + 1 ≥ field2.size
        ∨ (loIndex ((field2.size : ℚ) * (⟨1/4, 1/4, 1/4⟩ : Vec3))).2.1 + 1 ≥ field2.size
        ∨ (loIndex ((field2.size : ℚ) * (⟨1/4, 1/4, 1/4⟩ : Vec3))).2.2 + 1 ≥ field2.size)
    ∧ ((∀ k : Fin 8,
        index_of field2.size (stencil (loIndex ((field2.size : ℚ) * (⟨1/4, 1/4, 1/4⟩ : Vec3))) k)
          < field2.cells.length)
      ∧ (field2.eval_trilinear ⟨1/4, 1/4, 1/4⟩ ⟨0, 0, 1⟩).isSome = true) := by
  have h2 : ¬(((⟨1/4, 1/4, 1/4⟩ : Vec3)).x < EPS ∨ ((⟨1/4, 1/4, 1/4⟩ : Vec3)).y < EPS
      ∨ ((⟨1/4, 1/4, 1/4⟩ : Vec3)).z < EPS
      ∨ ((⟨1/4, 1/4, 1/4⟩ : Vec3)).x > 1 - EPS
      ∨ ((⟨1/4, 1/4, 1/4⟩ : Vec3)).y > 1 - EPS
      ∨ ((⟨1/4, 1/4, 1/4⟩ : Vec3)).z > 1 - EPS) := by
    norm_num [EPS]
  have h3 : ¬((loIndex ((field2.size : ℚ) * (⟨1/4, 1/4, 1/4⟩ : Vec3))).1 + 1 ≥ field2.size
      ∨ (loIndex ((field2.size : ℚ) * (⟨1/4, 1/4, 1/4⟩ : Vec3))).2.1 + 1 ≥ field2.size
      ∨ (loIndex ((field2.size : ℚ) * (⟨1/4, 1/4, 1/4⟩ : Vec3))).2.2 + 1 ≥ field2.size) := by
    have hfl : (⌊(1 : ℚ) / 2⌋₊ : ℕ) = 0 := Nat.floor_eq_zero.mpr (by norm_num)
    norm_num [loIndex, ratToUsize, field2, Vec3.smul_def, hfl]
  exact ⟨rfl, h2, h3,
    eval_trilinear_gather_in_bounds field2 ⟨1/4, 1/4, 1/4⟩ ⟨0, 0, 1⟩ rfl h2 h3⟩

/-- Element access in the flattening of a list of equal-length lists:
position `i * V + j` addresses element `j` of sublist `i`. -/
theorem flatten_get_uniform {α : Type} (V : ℕ) :
    ∀ (L : List (List α)) (i j : ℕ), (∀ l ∈ L, l.length = V) → i < L.length →
      j < V → L.flatten.get? (i * V + j) = (L.get? i).bind (fun l => l.get? j)
  | [], i, j, _, hi, _ => by simp at hi
  | hd :: tl, 0, j, hl, hi, hj => by
    simp only [List.flatten_cons, List.get?_eq_getElem?, List.getElem?_append,
      zero_mul, zero_add]
    have hhd : hd.length = V := hl hd (List.mem_cons_self hd tl)
    rw [if_pos (hhd ▸ hj)]
    rw [List.getElem?_cons_zero]
    rfl
  | hd :: tl, (i + 1), j, hl, hi, hj => by
    have hhd : hd.length = V := hl hd (List.mem_cons_self hd tl)
    have hge : hd.length ≤ (i + 1) * V + j := by
      rw [hhd]
      calc V ≤ (i + 1) * V := Nat.le_mul_of_pos_left V (Nat.succ_pos i)
        _ ≤ (i + 1) * V + j := Nat.le_add_right _ _
    simp only [List.flatten_cons, List.get?_eq_getElem?, List.getElem?_append]
    rw [if_neg (by omega)]
    have harith : (i + 1) * V + j - hd.length = i * V + j := by
      rw [hhd]; ring_nf; omega
    rw [harith]
    have := flatten_get_uniform V tl i j
      (fun l hm => hl l (List.mem_cons_of_mem hd hm))
      (by simp only [List.length_cons] at hi; omega) hj
    simp only [List.get?_eq_getElem?] at this
    rw [this, List.getElem?_cons_succ]

/-- `List.finRange` holds each index at its own position. -/
theorem finRange_getQ {n : ℕ} (i : Fin n) :
    (List.finRange n).get? (i : ℕ) = some i := by
  have hlt : (i : ℕ) < (List.finRange n).length := by
    simp only [List.length_finRange]
    exact i.isLt
  rw [List.get?_eq_get hlt, List.get_finRange]

/-- C9: for a field with `cells.length = size³`, when `size` is not evenly
divisible by the batch size 64 the conversion is a hard failure before any
texture data is produced (`none`); when it is divisible the result consists
of `size / 64` batches, batch `b` being the concatenation of 9 slices of
`size·size·64` texels each, where texel `j` of slice `i` is
`(sh_r i, sh_g i, sh_b i, density)` of cell number `b·(size·size·64) + j`
in the field's flat order. -/
theorem radiance_field_to_textures_spec :
    ∀ f : RadianceField, f.cells.length = f.size ^ 3 →
      (f.size % 64 ≠ 0 → radiance_field_to_textures f = none)
      ∧ (f.size % 64 = 0 →
        ∃ B, radiance_field_to_textures f = some B
          ∧ B.length = f.size / 64
          ∧ ∀ b < f.size / 64,
              ∃ L, B.get? b = some L
                ∧ L.length = 9 * (f.size * f.size * 64)
                ∧ ∀ i : Fin 9, ∀ j < f.size * f.size * 64,
                    L.get? ((i : ℕ) * (f.size * f.size * 64) + j)
                      = (f.cells.get? (b * (f.size * f.size * 64) + j)).map
                          (fun cell =>
                            (cell.sh_r i, cell.sh_g i, cell.sh_b i,
                              cell.density))) := by
  intro f hlen
  constructor
  · intro hmod
    simp [radiance_field_to_textures, hmod]
  · intro hmod
    have hdvd : 64 ∣ f.size := Nat.dvd_of_mod_eq_zero hmod
    have hcancel : f.size / 64 * 64 = f.size := Nat.div_mul_cancel hdvd
    have hfull : f.size / 64 * (f.size * f.size * 64) = f.cells.length := by
      rw [hlen]
      calc f.size / 64 * (f.size * f.size * 64)
          = (f.size / 64 * 64) * (f.size * f.size) := by ring
        _ = f.size * (f.size * f.size) := by rw [hcancel]
        _ = f.size ^ 3 := by ring
    have hbatchlen : ∀ b, b < f.size / 64 →
        ((f.cells.drop (b * (f.size * f.size * 64))).take
          (f.size * f.size * 64)).length = f.size * f.size * 64 := by
      intro b hb
      rw [List.length_take, List.length_drop]
      have hb1 : (b + 1) * (f.size * f.size * 64) ≤ f.cells.length := by
        rw [← hfull]
        exact Nat.mul_le_mul_right _ (by omega)
      have hsplit : (b + 1) * (f.size * f.size * 64)
          = b * (f.size * f.size * 64) + f.size * f.size * 64 := by ring
      omega
    refine ⟨(List.range (f.size / 64)).map (fun batch_index =>
      ((List.finRange 9).map (fun i =>
        ((f.cells.drop (batch_index * (f.size * f.size * 64))).take
          (f.size * f.size * 64)).map (fun cell =>
            (cell.sh_r i, cell.sh_g i, cell.sh_b i, cell.density)))).flatten),
      ?_, ?_, ?_⟩
    · simp only [radiance_field_to_textures, if_pos hmod]
    · simp
    · intro b hb
      refine ⟨((List.finRange 9).map (fun i =>
        ((f.cells.drop (b * (f.size * f.size * 64))).take
          (f.size * f.size * 64)).map (fun cell =>
            (cell.sh_r i, cell.sh_g i, cell.sh_b i, cell.density)))).flatten,
        ?_, ?_, ?_⟩
      · rw [List.get?_eq_getElem?, List.getElem?_map, List.getElem?_range hb]
        rfl
      · rw [List.length_flatten]
        have hmaplen : (((List.finRange 9).map (fun i =>
            ((f.cells.drop (b * (f.size * f.size * 64))).take
              (f.size * f.size * 64)).map (fun cell =>
                (cell.sh_r i, cell.sh_g i, cell.sh_b i, cell.density)))).map
            List.length) = List.replicate 9 (f.size * f.size * 64) := by
          rw [List.map_map]
          have hconst : (List.length ∘ fun i : Fin 9 =>
              ((f.cells.drop (b * (f.size * f.size * 64))).take
                (f.size * f.size * 64)).map (fun cell =>
                  (cell.sh_r i, cell.sh_g i, cell.sh_b i, cell.density)))
              = fun _ : Fin 9 => f.size * f.size * 64 := by
            funext i
            simp only [Function.comp_apply, List.length_map]
            exact hbatchlen b hb
          rw [hconst]
          rw [List.map_const']
          simp
        rw [hmaplen, List.sum_replicate, smul_eq_mul]
      · intro i j hj
        rw [flatten_get_uniform (f.size * f.size * 64) _ (i : ℕ) j ?hl ?hi hj]
        case hl =>
          intro l hm
          obtain ⟨k, _, rfl⟩ := List.mem_map.mp hm
          rw [List.length_map]
          exact hbatchlen b hb
        case hi =>
          rw [List.length_map]
          simp only [List.length_finRange]
          exact i.isLt
        rw [List.get?_eq_getElem?, List.getElem?_map]
        have hfr := finRange_getQ i
        rw [List.get?_eq_getElem?] at hfr
        rw [hfr]
        simp only [Option.map_some', Option.some_bind]
        rw [List.get?_eq_getElem?, List.getElem?_map, List.getElem?_take,
          if_pos hj, List.getElem?_drop]
        rw [List.get?_eq_getElem?]

/-- Witness for `radiance_field_to_textures_spec`: the size-1 field is
rejected (64 does not divide 1) and the empty size-0 field is split into 0
batches. -/
theorem radiance_field_to_textures_spec_witness :
    field1.cells.length = field1.size ^ 3
    ∧ field1.size % 64 ≠ 0
    ∧ radiance_field_to_textures field1 = none
    ∧ field0.cells.length = field0.size ^ 3
    ∧ field0.size % 64 = 0
    ∧ (∃ B, radiance_field_to_textures field0 = some B
        ∧ B.length = field0.size / 64
        ∧ ∀ b < field0.size / 64,
            ∃ L, B.get? b = some L
              ∧ L.length = 9 * (field0.size * field0.size * 64)
              ∧ ∀ i : Fin 9, ∀ j < field0.size * field0.size * 64,
                  L.get? ((i : ℕ) * (field0.size * field0.size * 64) + j)
                    = (field0.cells.get? (b * (field0.size * field0.size * 64) + j)).map
                        (fun cell =>
                          (cell.sh_r i, cell.sh_g i, cell.sh_b i,
                            cell.density))) := by
  have hm1 : field1.size % 64 ≠ 0 := by decide
  have hm0 : field0.size % 64 = 0 := rfl
  exact ⟨rfl, hm1, (radiance_field_to_textures_spec field1 rfl).1 hm1,
    rfl, hm0, (radiance_field_to_textures_spec field0 rfl).2 hm0⟩

/-- Unfolding lemma for the `Vec3` subtraction instance. -/
theorem Vec3.sub_def (a b : Vec3) :
    a - b = ⟨a.x - b.x, a.y - b.y, a.z - b.z⟩ := rfl

/-- C6: `render_image_cpu` produces `width * height` packed pixels; the
pixel at index `y * width + x` is the packed color of the per-pixel
computation at normalized screen coordinate
`((2x + 0.5) / (width - 1) - 1, (2y + 0.5) / (height - 1) - 1)` (the
parallel collect stores results by pixel index); when the pixel's camera ray
misses the `[-1/2, 1/2]³` bounding box used by the CPU path, the per-pixel
color is exactly zero; and on a hit the marcher runs with `near` clamped to
`0` by `max`. -/
theorem render_image_cpu_spec :
    (∀ (P : Prim) (w h : ℕ) (field : RadianceField) (cfg : RenderConfiguration),
      (render_image_cpu P w h field cfg).length = w * h)
    ∧ (∀ (P : Prim) (w h : ℕ) (field : RadianceField) (cfg : RenderConfiguration)
        (x y : ℕ), x < w → y < h →
      (render_image_cpu P w h field cfg).get? (y * w + x)
        = some (compact_color
            ((get_color P (pixelCoord w h x y) w h field cfg).extend 1)))
    ∧ (∀ (P : Prim) (coord : Vec2) (w h : ℕ) (field : RadianceField)
        (cfg : RenderConfiguration),
      intersect_ray_box (camera_ray P cfg.camera coord ((h : ℚ) / (w : ℚ))).1
          (camera_ray P cfg.camera coord ((h : ℚ) / (w : ℚ))).2
          ((-(1/2) : ℚ) * Vec3.ONE) ((1/2 : ℚ) * Vec3.ONE) = none →
      get_color P coord w h field cfg = Vec3.ZERO)
    ∧ (∀ (P : Prim) (coord : Vec2) (w h : ℕ) (field : RadianceField)
        (cfg : RenderConfiguration) (nf : F32 × F32),
      intersect_ray_box (camera_ray P cfg.camera coord ((h : ℚ) / (w : ℚ))).1
          (camera_ray P cfg.camera coord ((h : ℚ) / (w : ℚ))).2
          ((-(1/2) : ℚ) * Vec3.ONE) ((1/2 : ℚ) * Vec3.ONE) = some nf →
      get_color P coord w h field cfg
        = raymarch P (camera_ray P cfg.camera coord ((h : ℚ) / (w : ℚ))).1
            (camera_ray P cfg.camera coord ((h : ℚ) / (w : ℚ))).2
            ((nf.1.max (F32.fin 0)).toRat) nf.2.toRat
            (colorFn field) cfg.rm_settings) := by
  refine ⟨?_, ?_, ?_, ?_⟩
  · intro P w h field cfg
    simp [render_image_cpu]
  · intro P w h field cfg x y hx hy
    have hw : 0 < w := by omega
    have hi : y * w + x < w * h := by
      calc y * w + x < y * w + w := by omega
        _ = (y + 1) * w := by ring
        _ ≤ h * w := Nat.mul_le_mul_right w (by omega)
        _ = w * h := Nat.mul_comm h w
    unfold render_image_cpu
    rw [List.get?_eq_getElem?, List.getElem?_map, List.getElem?_range hi]
    have hmod : (y * w + x) % w = x := by
      rw [Nat.add_comm, Nat.add_mul_mod_self_right, Nat.mod_eq_of_lt hx]
    have hdivv : (y * w + x) / w = y := by
      rw [Nat.add_comm, Nat.add_mul_div_right x y hw, Nat.div_eq_of_lt hx,
        Nat.zero_add]
    simp only [Option.map_some']
    rw [hmod, hdivv]
  · intro P coord w h field cfg hmiss
    unfold get_color
    dsimp only
    split
    · rfl
    · rename_i nf' heq
      rw [hmiss] at heq
      cases heq
  · intro P coord w h field cfg nf hhit
    unfold get_color
    dsimp only
    split
    · rename_i heq
      rw [hhit] at heq
      cases heq
    · rename_i nf' heq
      rw [hhit] at heq
      cases heq
      rfl

/-- Witness for `render_image_cpu_spec`: a `1 × 1` image for the indexing
conjunct, a camera configuration whose degenerate ray misses the box for
the background conjunct, and one whose ray yields `some (-inf, +inf)` for
the clamped-marching conjunct. -/
theorem render_image_cpu_spec_witness :
    (render_image_cpu prim0 1 1 field2
        ⟨⟨0, 0, 0, 0, ⟨-5, 5, 0⟩⟩, ⟨0⟩⟩).length = 1 * 1
    ∧ (0 : ℕ) < 1
    ∧ (render_image_cpu prim0 1 1 field2
        ⟨⟨0, 0, 0, 0, ⟨-5, 5, 0⟩⟩, ⟨0⟩⟩).get? (0 * 1 + 0)
      = some (compact_color ((get_color prim0 (pixelCoord 1 1 0 0) 1 1 field2
          ⟨⟨0, 0, 0, 0, ⟨-5, 5, 0⟩⟩, ⟨0⟩⟩).extend 1))
    ∧ intersect_ray_box
        (camera_ray prim0 ⟨0, 0, 0, 0, ⟨-5, 5, 0⟩⟩ ⟨0, 0⟩ ((4 : ℚ) / (4 : ℚ))).1
        (camera_ray prim0 ⟨0, 0, 0, 0, ⟨-5, 5, 0⟩⟩ ⟨0, 0⟩ ((4 : ℚ) / (4 : ℚ))).2
        ((-(1/2) : ℚ) * Vec3.ONE) ((1/2 : ℚ) * Vec3.ONE) = none
    ∧ get_color prim0 ⟨0, 0⟩ 4 4 field2 ⟨⟨0, 0, 0, 0, ⟨-5, 5, 0⟩⟩, ⟨0⟩⟩
        = Vec3.ZERO
    ∧ intersect_ray_box
        (camera_ray prim0 ⟨0, 0, 0, 0, ⟨1/4, 0, 0⟩⟩ ⟨0, 0⟩ ((4 : ℚ) / (4 : ℚ))).1
        (camera_ray prim0 ⟨0, 0, 0, 0, ⟨1/4, 0, 0⟩⟩ ⟨0, 0⟩ ((4 : ℚ) / (4 : ℚ))).2
        ((-(1/2) : ℚ) * Vec3.ONE) ((1/2 : ℚ) * Vec3.ONE)
      = some (F32.ninf, F32.inf)
    ∧ get_color prim0 ⟨0, 0⟩ 4 4 field2 ⟨⟨0, 0, 0, 0, ⟨1/4, 0, 0⟩⟩, ⟨0⟩⟩
        = raymarch prim0
            (camera_ray prim0 ⟨0, 0, 0, 0, ⟨1/4, 0, 0⟩⟩ ⟨0, 0⟩ ((4 : ℚ) / (4 : ℚ))).1
            (camera_ray prim0 ⟨0, 0, 0, 0, ⟨1/4, 0, 0⟩⟩ ⟨0, 0⟩ ((4 : ℚ) / (4 : ℚ))).2
            ((F32.ninf.max (F32.fin 0)).toRat) F32.inf.toRat
            (colorFn field2) ⟨0⟩ := by
  have hmiss : intersect_ray_box
      (camera_ray prim0 ⟨0, 0, 0, 0, ⟨-5, 5, 0⟩⟩ ⟨0, 0⟩ ((4 : ℚ) / (4 : ℚ))).1
      (camera_ray prim0 ⟨0, 0, 0, 0, ⟨-5, 5, 0⟩⟩ ⟨0, 0⟩ ((4 : ℚ) / (4 : ℚ))).2
      ((-(1/2) : ℚ) * Vec3.ONE) ((1/2 : ℚ) * Vec3.ONE) = none := by
    norm_num [camera_ray, spherical_to_cartesian, Vec3.normalize, Vec3.dot,
      Vec3.cross, prim0, Vec3.smul_def, Vec3.mul_scalar_def, Vec3.add_def,
      Vec3.sub_def, Vec3.Z, Vec3.X, Vec3.ONE, intersect_ray_box, F32.invQ,
      F32.mulQ, F32.min, F32.max, F32.leB, min_def, max_def]
  have hhit : intersect_ray_box
      (camera_ray prim0 ⟨0, 0, 0, 0, ⟨1/4, 0, 0⟩⟩ ⟨0, 0⟩ ((4 : ℚ) / (4 : ℚ))).1
      (camera_ray prim0 ⟨0, 0, 0, 0, ⟨1/4, 0, 0⟩⟩ ⟨0, 0⟩ ((4 : ℚ) / (4 : ℚ))).2
      ((-(1/2) : ℚ) * Vec3.ONE) ((1/2 : ℚ) * Vec3.ONE)
      = some (F32.ninf, F32.inf) := by
    norm_num [camera_ray, spherical_to_cartesian, Vec3.normalize, Vec3.dot,
      Vec3.cross, prim0, Vec3.smul_def, Vec3.mul_scalar_def, Vec3.add_def,
      Vec3.sub_def, Vec3.Z, Vec3.X, Vec3.ONE, intersect_ray_box, F32.invQ,
      F32.mulQ, F32.min, F32.max, F32.leB, min_def, max_def]
  refine ⟨render_image_cpu_spec.1 prim0 1 1 field2 ⟨⟨0, 0, 0, 0, ⟨-5, 5, 0⟩⟩, ⟨0⟩⟩,
    by norm_num,
    render_image_cpu_spec.2.1 prim0 1 1 field2 ⟨⟨0, 0, 0, 0, ⟨-5, 5, 0⟩⟩, ⟨0⟩⟩
      0 0 (by norm_num) (by norm_num),
    hmiss,
    render_image_cpu_spec.2.2.1 prim0 ⟨0, 0⟩ 4 4 field2
      ⟨⟨0, 0, 0, 0, ⟨-5, 5, 0⟩⟩, ⟨0⟩⟩ hmiss,
    hhit,
    render_image_cpu_spec.2.2.2 prim0 ⟨0, 0⟩ 4 4 field2
      ⟨⟨0, 0, 0, 0, ⟨1/4, 0, 0⟩⟩, ⟨0⟩⟩ (F32.ninf, F32.inf) hhit⟩
